import Mathlib

/-!
Shallow embedding of the text-edit translation engine from `src/util.rs`
(kak-lsp): conversion of LSP (0-based, exclusive) ranges into Kakoune
(1-based, inclusive) selections, classification of edits, stable ordering,
adjoin detection, and emission of the final editor command string.
-/

namespace KakLsp

/-- LSP position: 0-based line and character (from `lsp_types::Position`). -/
structure Position where
  line : Nat
  character : Nat
deriving DecidableEq

/-- LSP range: half-open span between two positions (from `lsp_types::Range`). -/
structure Range where
  start : Position
  «end» : Position
deriving DecidableEq

/-- An LSP text edit: a range and its replacement text (from `lsp_types::TextEdit`). -/
structure TextEdit where
  range : Range
  new_text : String
deriving DecidableEq

/-- The numeric core of `lsp_range_to_kakoune` in `src/util.rs`: the four
native numbers (start line, start column, end line, end column) that the
Rust function formats into a string. -/
def lsp_range_to_kakoune_nums (range : Range) : Nat × Nat × Nat × Nat :=
  let start_line := range.start.line
  let start_char := range.start.character
  let end_line := range.«end».line
  let end_char := range.«end».character
  -- Some language servers tend to return 0-length ranges.
  let end_char := if start_line = end_line ∧ start_char = end_char then end_char + 1 else end_char
  let end_line := if end_char > 0 then end_line + 1 else end_line
  let end_char := if end_char > 0 then end_char else 1000000
  (start_line + 1, start_char + 1, end_line, end_char)

/-- `lsp_range_to_kakoune` from `src/util.rs`: format the native numbers as
`"{start_line}.{start_char},{end_line}.{end_char}"`. -/
def lsp_range_to_kakoune (range : Range) : String :=
  let n := lsp_range_to_kakoune_nums range
  toString n.1 ++ "." ++ toString n.2.1 ++ "," ++ toString n.2.2.1 ++ "." ++ toString n.2.2.2

/-- `KakouneTextEditCommand` from `src/util.rs`. -/
inductive KakouneTextEditCommand where
  | InsertBefore
  | InsertAfter
  | Replace
deriving DecidableEq

/-- `KakouneTextEdit` from `src/util.rs`. -/
structure KakouneTextEdit where
  range : Range
  new_text : String
  command : KakouneTextEditCommand
deriving DecidableEq

/-- `lsp_text_edit_to_kakoune` from `src/util.rs`: convert one LSP text edit
to a Kakoune edit record, classifying it as insert-before / insert-after /
replace from the shape of the original range. -/
def lsp_text_edit_to_kakoune (text_edit : TextEdit) : KakouneTextEdit :=
  let start_line := text_edit.range.start.line
  let start_char := text_edit.range.start.character
  let end_line := text_edit.range.«end».line
  let end_char := text_edit.range.«end».character
  let insert := start_line = end_line ∧ start_char = end_char
  let bol_insert := insert ∧ end_char = 0
  let start_line := start_line + 1
  let start_char := start_char + 1
  -- (start column, end line, end column) after the branch on `end_char`
  let n : Nat × Nat × Nat :=
    if end_char > 0 then
      (if insert then end_char else start_char, end_line + 1, end_char)
    else if bol_insert then
      (start_char, end_line + 1, 1)
    else
      (start_char, end_line, 1000000)
  { range := { start := { line := start_line, character := n.1 },
               «end» := { line := n.2.1, character := n.2.2 } },
    new_text := text_edit.new_text,
    command := if bol_insert then .InsertBefore
               else if insert then .InsertAfter
               else .Replace }

/-- `editor_escape` from `src/util.rs`: double every single quote.  The Rust
code is `s.replace("'", "''")`; with a single-character pattern this is the
per-character expansion below. -/
def editor_escape (s : String) : String :=
  ⟨s.data.foldr
    (fun c acc => if c = Char.ofNat 39 then Char.ofNat 39 :: Char.ofNat 39 :: acc else c :: acc)
    []⟩

/-- `editor_quote` from `src/util.rs`: wrap in single quotes after escaping. -/
def editor_quote (s : String) : String :=
  "'" ++ editor_escape s ++ "'"

/-- The sort key used by `apply_text_edits` in `src/util.rs`:
`(start line, start column, end line, end column)`. -/
def editKey (x : KakouneTextEdit) : Nat × Nat × Nat × Nat :=
  (x.range.start.line, x.range.start.character, x.range.«end».line, x.range.«end».character)

/-- Lexicographic order on the 4-tuple sort key (Rust tuple `Ord`). -/
def keyLe (a b : Nat × Nat × Nat × Nat) : Prop :=
  a.1 < b.1 ∨ (a.1 = b.1 ∧
    (a.2.1 < b.2.1 ∨ (a.2.1 = b.2.1 ∧
      (a.2.2.1 < b.2.2.1 ∨ (a.2.2.1 = b.2.2.1 ∧ a.2.2.2 ≤ b.2.2.2)))))

instance (a b : Nat × Nat × Nat × Nat) : Decidable (keyLe a b) := by
  unfold keyLe; infer_instance

/-- Edit comparison by sort key. -/
def editLe (a b : KakouneTextEdit) : Prop :=
  keyLe (editKey a) (editKey b)

instance (a b : KakouneTextEdit) : Decidable (editLe a b) := by
  unfold editLe; infer_instance

instance : IsTotal KakouneTextEdit editLe := by
  constructor
  intro a b
  unfold editLe keyLe
  omega

instance : IsTrans KakouneTextEdit editLe := by
  constructor
  intro a b c
  unfold editLe keyLe
  omega

/-- The `edits.sort_by_key(...)` step of `apply_text_edits` in `src/util.rs`.
Rust's slice sort is a stable sort by the key; we model it with the stable
insertion sort, which agrees with every stable sort by the same key. -/
def sortTextEdits (edits : List KakouneTextEdit) : List KakouneTextEdit :=
  edits.insertionSort editLe

/-- The native range as formatted in the `select_edits` step of
`apply_text_edits`: `"{start.line}.{start.character},{end.line}.{end.character}"`. -/
def kakoune_range_text (r : Range) : String :=
  toString r.start.line ++ "." ++ toString r.start.character ++ "," ++
  toString r.«end».line ++ "." ++ toString r.«end».character

/-- The `select_edits` argument list of `apply_text_edits` in `src/util.rs`:
all edit ranges, space-separated. -/
def select_edits (edits : List KakouneTextEdit) : String :=
  String.intercalate " " (edits.map (fun e => kakoune_range_text e.range))

/-- The adjacency test on one consecutive pair from the `adjoin_selections`
computation in `apply_text_edits`. -/
def adjoin_pair (a b : KakouneTextEdit) : Bool :=
  let e := a.range.«end»
  let s := b.range.start
  (e.line == s.line && e.character + 1 == s.character) ||
  (e.line + 1 == s.line && e.character == 1000000 && s.character == 1)

/-- The `adjoin_selections` set of `apply_text_edits` in `src/util.rs`:
indices `i` such that edits `i` and `i + 1` adjoin (from
`edits.windows(2).enumerate().filter_map(...)`). -/
def adjoin_selections (edits : List KakouneTextEdit) : List Nat :=
  (List.range (edits.length - 1)).filter (fun i =>
    match edits[i]?, edits[i + 1]? with
    | some a, some b => adjoin_pair a b
    | _, _ => false)

/-- The editor primitive name chosen by `ApplicationKind` in
`apply_text_edits`. -/
def command_name : KakouneTextEditCommand → String
  | .InsertBefore => "lsp-insert-before-selection"
  | .InsertAfter => "lsp-insert-after-selection"
  | .Replace => "lsp-replace-selection"

/-- One apply directive of `apply_text_edits`: the Rust format string
`"exec 'z{}<space>'\n                    {} {}"` with the selection-index
prefix, the primitive name and the quoted replacement text. -/
def apply_edit_command (selection_index : Nat) (e : KakouneTextEdit) : String :=
  "exec 'z" ++ (if selection_index > 0 then toString selection_index ++ ")" else "") ++
  "<space>'\n                    " ++ command_name e.command ++ " " ++ editor_quote e.new_text

/-- The emission loop of `apply_text_edits`: walk the sorted edits with the
enumeration index `i` and the mutable `selection_index`, emitting one apply
directive per edit; the counter advances unless the edit both adjoins its
successor and has empty replacement text. -/
def apply_edits_fold (adjset : List Nat) : Nat → Nat → List KakouneTextEdit → List String
  | _, _, [] => []
  | i, selection_index, e :: rest =>
    apply_edit_command selection_index e ::
    apply_edits_fold adjset (i + 1)
      (if i ∈ adjset ∧ e.new_text = "" then selection_index else selection_index + 1) rest

/-- The sequence of `selection_index` values observed at each emission of
`apply_edits_fold` (same recursion, projecting the counter). -/
def selection_indices (adjset : List Nat) : Nat → Nat → List KakouneTextEdit → List Nat
  | _, _, [] => []
  | i, selection_index, e :: rest =>
    selection_index ::
    selection_indices adjset (i + 1)
      (if i ∈ adjset ∧ e.new_text = "" then selection_index else selection_index + 1) rest

/-- The inner command block of `apply_text_edits` in `src/util.rs`: the
`select` directive over all sorted edit ranges, the register-saving `exec`,
and the newline-joined apply directives (the Rust format string
`"select {}\n            exec -save-regs '' Z\n            {}"`). -/
def edit_commands_block (text_edits : List TextEdit) : String :=
  let edits := sortTextEdits (text_edits.map lsp_text_edit_to_kakoune)
  "select " ++ select_edits edits ++ "\n            exec -save-regs '' Z\n            " ++
  String.intercalate "\n" (apply_edits_fold (adjoin_selections edits) 0 0 edits)

/-- `apply_text_edits` from `src/util.rs`.  The optional `uri` stands for the
target document's file path (`Url::to_file_path` is modelled as the path
string itself). -/
def apply_text_edits (uri : Option String) (text_edits : List TextEdit) : String :=
  -- empty text edits processed as a special case because Kakoune's `select`
  -- command doesn't support an empty arguments list
  if text_edits.isEmpty then "nop"
  else
    let command := "eval -draft -save-regs '^' " ++ editor_quote (edit_commands_block text_edits)
    match uri with
    | some buffile => "lsp-apply-edits-to-file " ++ editor_quote buffile ++ " " ++
                      editor_quote command
    | none => command

/-- `Location` from `lsp_types`, as used by
`goto_definition_response_to_location` (uri modelled as its string). -/
structure Location where
  uri : String
  range : Range
deriving DecidableEq

/-- `LocationLink` from `lsp_types` (the fields the source touches). -/
structure LocationLink where
  origin_selection_range : Option Range
  target_uri : String
  target_range : Range
  target_selection_range : Range
deriving DecidableEq

/-- `GotoDefinitionResponse` from `lsp_types::request`. -/
inductive GotoDefinitionResponse where
  | Scalar : Location → GotoDefinitionResponse
  | Array : List Location → GotoDefinitionResponse
  | Link : List LocationLink → GotoDefinitionResponse
deriving DecidableEq

/-- `goto_definition_response_to_location` from `src/util.rs`: collapse a
definition response to its first location, converting a `LocationLink` by
dropping source information (`locations.remove(0)` returns the first
element). -/
def goto_definition_response_to_location :
    Option GotoDefinitionResponse → Option Location
  | some (.Scalar location) => some location
  | some (.Array locations) =>
    match locations with
    | [] => none
    | l :: _ => some l
  | some (.Link locations) =>
    match locations with
    | [] => none
    | lk :: _ => some { uri := lk.target_uri, range := lk.target_range }
  | none => none

/-! ### Concrete inputs used by counterexamples and witnesses -/

/-- Scenario A input: abstract range `(4, 2)`–`(4, 2)`, text `"x"`. -/
def scenarioAEdit : TextEdit := ⟨⟨⟨4, 2⟩, ⟨4, 2⟩⟩, "x"⟩

/-- A one-character replacement edit used to exercise the wrapping branch. -/
def demoReplaceEdit : TextEdit := ⟨⟨⟨0, 0⟩, ⟨0, 1⟩⟩, "y"⟩

/-- Scenario C input: a cross-line deletion followed by a pure insertion at
the start of the deleted line, both with empty replacement text. -/
def scenarioCEdits : List TextEdit := [⟨⟨⟨2, 0⟩, ⟨3, 0⟩⟩, ""⟩, ⟨⟨⟨3, 0⟩, ⟨3, 0⟩⟩, ""⟩]

/-! ### Helper lemmas -/

/-- The emission loop produces exactly one apply directive per edit, each at
the counter value recorded by `selection_indices`. -/
theorem apply_edits_fold_eq_zipWith (adjset : List Nat) :
    ∀ (edits : List KakouneTextEdit) (i s : Nat),
      apply_edits_fold adjset i s edits =
        List.zipWith apply_edit_command (selection_indices adjset i s edits) edits
  | [], _, _ => rfl
  | e :: rest, i, s => by
    simp only [apply_edits_fold, selection_indices, List.zipWith]
    congr 1
    exact apply_edits_fold_eq_zipWith adjset rest (i + 1) _

/-- If every edit has empty replacement text and every consecutive index
(shifted by the running enumeration index) is flagged, the counter never
advances. -/
theorem selection_indices_const (adjset : List Nat) :
    ∀ (edits : List KakouneTextEdit) (i s : Nat),
      (∀ e ∈ edits, e.new_text = "") →
      (∀ k, k + 1 < edits.length → (i + k) ∈ adjset) →
      selection_indices adjset i s edits = List.replicate edits.length s
  | [], _, _, _, _ => rfl
  | [e], i, s, _, _ => by
    simp [selection_indices, List.replicate]
  | e :: e2 :: rest, i, s, hempty, hflag => by
    have hmem : i ∈ adjset := by
      have := hflag 0 (by simp)
      simpa using this
    have hcond : i ∈ adjset ∧ e.new_text = "" := ⟨hmem, hempty e (by simp)⟩
    have ih := selection_indices_const adjset (e2 :: rest) (i + 1) s
      (fun x hx => hempty x (List.mem_cons_of_mem e hx))
      (fun k hk => by
        have := hflag (k + 1) (by simpa using Nat.succ_lt_succ hk)
        simpa [Nat.add_assoc, Nat.add_comm 1 k] using this)
    show s :: selection_indices adjset (i + 1)
        (if i ∈ adjset ∧ e.new_text = "" then s else s + 1) (e2 :: rest) =
      List.replicate (e :: e2 :: rest).length s
    rw [if_pos hcond, ih]
    simp [List.replicate_succ]

/-! ### Claims -/

/-- C2: `lsp_range_to_kakoune` realises the exact coordinate mapping: a
zero-length abstract range at 0-based `(L, C)` yields the native range string
`"{L+1}.{C+1},{L+1}.{C+1}"`, and a non-zero-length abstract range ending at
column 0 of 0-based line `E` yields the native end `(E, 1000000)` — the
end-of-line sentinel with the end line not incremented. -/
theorem c2_coordinate_mapping :
    (∀ L C : Nat, lsp_range_to_kakoune ⟨⟨L, C⟩, ⟨L, C⟩⟩ =
      toString (L + 1) ++ "." ++ toString (C + 1) ++ "," ++
      toString (L + 1) ++ "." ++ toString (C + 1)) ∧
    (∀ sl sc E : Nat, ¬(sl = E ∧ sc = 0) →
      lsp_range_to_kakoune ⟨⟨sl, sc⟩, ⟨E, 0⟩⟩ =
      toString (sl + 1) ++ "." ++ toString (sc + 1) ++ "," ++
      toString E ++ "." ++ toString 1000000) := by
  constructor
  · intro L C
    simp [lsp_range_to_kakoune, lsp_range_to_kakoune_nums]
  · intro sl sc E h
    simp [lsp_range_to_kakoune, lsp_range_to_kakoune_nums, h]

/-- Witness for C2 at the concrete range `(2, 7)`–`(5, 0)`. -/
theorem c2_coordinate_mapping_witness :
    ¬((2 : Nat) = 5 ∧ (7 : Nat) = 0) ∧
    lsp_range_to_kakoune ⟨⟨2, 7⟩, ⟨5, 0⟩⟩ =
      toString (2 + 1) ++ "." ++ toString (7 + 1) ++ "," ++
      toString 5 ++ "." ++ toString 1000000 :=
  ⟨by decide, c2_coordinate_mapping.2 2 7 5 (by decide)⟩

/-- C8: for a non-zero-length abstract range with positive end column,
converting with `lsp_range_to_kakoune` (its numeric core) and then applying
the inverse of the base conversion — subtract 1 from native start line and
start column, subtract 1 from native end line, keep the native end column —
recovers the original abstract bounds exactly. -/
theorem c8_roundtrip (r : Range) (hne : ¬ r.start = r.«end») (hpos : 0 < r.«end».character) :
    ((lsp_range_to_kakoune_nums r).1 - 1,
     (lsp_range_to_kakoune_nums r).2.1 - 1,
     (lsp_range_to_kakoune_nums r).2.2.1 - 1,
     (lsp_range_to_kakoune_nums r).2.2.2) =
    (r.start.line, r.start.character, r.«end».line, r.«end».character) := by
  obtain ⟨⟨sl, sc⟩, ⟨el, ec⟩⟩ := r
  have h : ¬(sl = el ∧ sc = ec) := by
    intro ⟨h1, h2⟩
    exact hne (by simp [h1, h2])
  simp only at hpos
  simp only [lsp_range_to_kakoune_nums, if_neg h]
  simp [hpos]

/-- Witness for C8 at the concrete range `(1, 2)`–`(3, 4)`. -/
theorem c8_roundtrip_witness :
    ¬(Position.mk 1 2 : Position) = ⟨3, 4⟩ ∧ (0 : Nat) < 4 ∧
    ((lsp_range_to_kakoune_nums ⟨⟨1, 2⟩, ⟨3, 4⟩⟩).1 - 1,
     (lsp_range_to_kakoune_nums ⟨⟨1, 2⟩, ⟨3, 4⟩⟩).2.1 - 1,
     (lsp_range_to_kakoune_nums ⟨⟨1, 2⟩, ⟨3, 4⟩⟩).2.2.1 - 1,
     (lsp_range_to_kakoune_nums ⟨⟨1, 2⟩, ⟨3, 4⟩⟩).2.2.2) =
    ((1 : Nat), (2 : Nat), (3 : Nat), (4 : Nat)) :=
  ⟨by decide, by decide, c8_roundtrip ⟨⟨1, 2⟩, ⟨3, 4⟩⟩ (by decide) (by decide)⟩

/-- C10: `goto_definition_response_to_location` returns `none` exactly when
the input is `none` or an empty `Array`/`Link` list; otherwise it returns
the first element, with a `LocationLink` converted by keeping only
`target_uri` and `target_range`. -/
theorem c10_goto_definition_first_location :
    (∀ r, goto_definition_response_to_location r = none ↔
      (r = none ∨ r = some (.Array []) ∨ r = some (.Link []))) ∧
    (∀ l, goto_definition_response_to_location (some (.Scalar l)) = some l) ∧
    (∀ l ls, goto_definition_response_to_location (some (.Array (l :: ls))) = some l) ∧
    (∀ lk lks, goto_definition_response_to_location (some (.Link (lk :: lks))) =
      some ⟨lk.target_uri, lk.target_range⟩) := by
  refine ⟨?_, fun l => rfl, fun l ls => rfl, fun lk lks => rfl⟩
  intro r
  match r with
  | none => simp [goto_definition_response_to_location]
  | some (.Scalar l) => simp [goto_definition_response_to_location]
  | some (.Array []) => simp [goto_definition_response_to_location]
  | some (.Array (l :: ls)) => simp [goto_definition_response_to_location]
  | some (.Link []) => simp [goto_definition_response_to_location]
  | some (.Link (lk :: lks)) => simp [goto_definition_response_to_location]

/-- C1 (counterexample): for the Scenario A edit — abstract range
`(4, 2)`–`(4, 2)` with text `"x"` — the code classifies the edit as
`InsertAfter` but the select directive lists the range `"5.2,5.2"`, not the
`"5.3,5.3"` stated by the claim: `lsp_text_edit_to_kakoune` sets the native
start column to the unshifted end column `2` for a column-positive insert. -/
theorem c1_scenario_a_counterexample :
    (lsp_text_edit_to_kakoune scenarioAEdit).command = .InsertAfter ∧
    select_edits (sortTextEdits ([scenarioAEdit].map lsp_text_edit_to_kakoune)) = "5.2,5.2" ∧
    select_edits (sortTextEdits ([scenarioAEdit].map lsp_text_edit_to_kakoune)) ≠ "5.3,5.3" := by
  refine ⟨rfl, rfl, ?_⟩
  decide

/-- C1 (amended): for the single-edit batch with abstract range
`(4, 2)`–`(4, 2)` and text `"x"`, the pipeline classifies the edit as
`InsertAfter` and the emitted command block selects exactly the single-column
native range `"5.2,5.2"` (line 5, column 2), followed by one insert-after
apply directive carrying the quoted text `'x'`. -/
theorem c1_scenario_a_amended :
    (lsp_text_edit_to_kakoune scenarioAEdit).command = .InsertAfter ∧
    edit_commands_block [scenarioAEdit] =
      "select 5.2,5.2\n            exec -save-regs '' Z\n            exec 'z<space>'\n                    lsp-insert-after-selection 'x'" :=
  ⟨rfl, rfl⟩

/-- C3: `lsp_text_edit_to_kakoune` assigns the `ApplicationKind` by exactly
these rules on the original abstract range — `InsertBefore` iff start equals
end with end column 0, `InsertAfter` iff start equals end with positive end
column, `Replace` otherwise — and in the `bol_insert` case the native end
line equals the native start line and the native end column is 1. -/
theorem c3_classification (te : TextEdit) :
    ((lsp_text_edit_to_kakoune te).command = .InsertBefore ↔
      (te.range.start = te.range.«end» ∧ te.range.«end».character = 0)) ∧
    ((lsp_text_edit_to_kakoune te).command = .InsertAfter ↔
      (te.range.start = te.range.«end» ∧ 0 < te.range.«end».character)) ∧
    ((lsp_text_edit_to_kakoune te).command = .Replace ↔
      ¬ te.range.start = te.range.«end») ∧
    (te.range.start = te.range.«end» → te.range.«end».character = 0 →
      (lsp_text_edit_to_kakoune te).range.«end».line =
        (lsp_text_edit_to_kakoune te).range.start.line ∧
      (lsp_text_edit_to_kakoune te).range.«end».character = 1) := by
  obtain ⟨⟨⟨sl, sc⟩, ⟨el, ec⟩⟩, t⟩ := te
  simp only [lsp_text_edit_to_kakoune, Position.mk.injEq, Range.mk.injEq]
  split_ifs with h1 h2 <;> simp_all

/-- Witness for C3: the beginning-of-line insert at abstract `(5, 0)` takes
the `bol_insert` branch, pinning the native end to line 6 column 1. -/
theorem c3_classification_witness :
    (Position.mk 5 0 : Position) = ⟨5, 0⟩ ∧ (0 : Nat) = 0 ∧
    ((lsp_text_edit_to_kakoune ⟨⟨⟨5, 0⟩, ⟨5, 0⟩⟩, "t"⟩).range.«end».line =
      (lsp_text_edit_to_kakoune ⟨⟨⟨5, 0⟩, ⟨5, 0⟩⟩, "t"⟩).range.start.line ∧
     (lsp_text_edit_to_kakoune ⟨⟨⟨5, 0⟩, ⟨5, 0⟩⟩, "t"⟩).range.«end».character = 1) :=
  ⟨rfl, rfl, (c3_classification ⟨⟨⟨5, 0⟩, ⟨5, 0⟩⟩, "t"⟩).2.2.2 rfl rfl⟩

/-- The wrapping condition as the specification words it (§4.5 step 5):
wrap exactly when a target-document identifier is supplied and differs from
the currently active document.  Stated for comparison with the code, which
never consults the active document. -/
def claimed_wrap_condition (uri : Option String) (active_document : String) : Prop :=
  ∃ u, uri = some u ∧ u ≠ active_document

/-- C6 (counterexample): with the active document equal to the supplied
identifier `"/tmp/a.rs"`, the claimed condition says the block is emitted
directly, yet `apply_text_edits` still wraps it in
`lsp-apply-edits-to-file` — the code wraps whenever an identifier is
supplied, without any comparison to the active document. -/
theorem c6_wrap_counterexample :
    ¬ claimed_wrap_condition (some "/tmp/a.rs") "/tmp/a.rs" ∧
    apply_text_edits (some "/tmp/a.rs") [demoReplaceEdit] =
      "lsp-apply-edits-to-file " ++ editor_quote "/tmp/a.rs" ++ " " ++
        editor_quote ("eval -draft -save-regs '^' " ++
          editor_quote (edit_commands_block [demoReplaceEdit])) ∧
    apply_text_edits (some "/tmp/a.rs") [demoReplaceEdit] ≠
      apply_text_edits none [demoReplaceEdit] := by
  refine ⟨?_, rfl, by decide⟩
  rintro ⟨u, hu, hne⟩
  exact hne (Option.some.injEq .. ▸ hu.symm)

/-- C6 (amended): for a non-empty batch, `apply_text_edits` wraps the
command block in `lsp-apply-edits-to-file` exactly when a target-document
identifier is supplied; when none is supplied the block is emitted
directly (the function performs no comparison with the active document). -/
theorem c6_wrap_exactly_when_uri_supplied (uri : Option String)
    (text_edits : List TextEdit) (h : text_edits ≠ []) :
    apply_text_edits uri text_edits =
      (match uri with
       | some buffile => "lsp-apply-edits-to-file " ++ editor_quote buffile ++ " " ++
           editor_quote ("eval -draft -save-regs '^' " ++
             editor_quote (edit_commands_block text_edits))
       | none => "eval -draft -save-regs '^' " ++
           editor_quote (edit_commands_block text_edits)) := by
  rw [apply_text_edits, if_neg (by simpa using h)]

/-- Witness for C6 (amended) at a concrete one-edit batch with no supplied
identifier. -/
theorem c6_wrap_witness :
    [demoReplaceEdit] ≠ [] ∧
    apply_text_edits none [demoReplaceEdit] =
      "eval -draft -save-regs '^' " ++ editor_quote (edit_commands_block [demoReplaceEdit]) :=
  ⟨by decide, c6_wrap_exactly_when_uri_supplied none [demoReplaceEdit] (by decide)⟩

/-- C4: `adjoin_selections` flags index `i` exactly when edits `i` and
`i + 1` exist and satisfy the same-line adjacency (equal lines, end column
plus 1 equals start column) or the cross-line sentinel adjacency (end column
1000000, end line plus 1 equals start line, start column 1); no other index
is flagged. -/
theorem c4_adjoin_detector (edits : List KakouneTextEdit) (i : Nat) :
    i ∈ adjoin_selections edits ↔
      ∃ h : i + 1 < edits.length,
        (((edits.get ⟨i, Nat.lt_of_succ_lt h⟩).range.«end».line
            = (edits.get ⟨i + 1, h⟩).range.start.line ∧
          (edits.get ⟨i, Nat.lt_of_succ_lt h⟩).range.«end».character + 1
            = (edits.get ⟨i + 1, h⟩).range.start.character) ∨
         ((edits.get ⟨i, Nat.lt_of_succ_lt h⟩).range.«end».character = 1000000 ∧
          (edits.get ⟨i, Nat.lt_of_succ_lt h⟩).range.«end».line + 1
            = (edits.get ⟨i + 1, h⟩).range.start.line ∧
          (edits.get ⟨i + 1, h⟩).range.start.character = 1)) := by
  unfold adjoin_selections
  rw [List.mem_filter, List.mem_range]
  constructor
  · rintro ⟨hr, hc⟩
    have h : i + 1 < edits.length := by omega
    refine ⟨h, ?_⟩
    rw [List.getElem?_eq_getElem (Nat.lt_of_succ_lt h), List.getElem?_eq_getElem h] at hc
    simp only [adjoin_pair, Bool.or_eq_true, Bool.and_eq_true, beq_iff_eq] at hc
    simp only [List.get_eq_getElem]
    tauto
  · rintro ⟨h, hc⟩
    refine ⟨by omega, ?_⟩
    rw [List.getElem?_eq_getElem (Nat.lt_of_succ_lt h), List.getElem?_eq_getElem h]
    simp only [adjoin_pair, Bool.or_eq_true, Bool.and_eq_true, beq_iff_eq]
    simp only [List.get_eq_getElem] at hc
    tauto

/-- C5: the emission loop starts the selection counter at 0 and emits one
directive per edit at the recorded counter value; a directive targets the
current selection when the counter is 0 and the selection `counter`
positions ahead when positive; the counter advances by exactly 1 unless the
edit is flagged as adjoining its successor and has empty replacement text;
and a batch of all-empty, fully adjoining edits keeps the counter at 0
throughout. -/
theorem c5_selection_counter :
    (∀ (adjset : List Nat) (edits : List KakouneTextEdit),
      apply_edits_fold adjset 0 0 edits =
        List.zipWith apply_edit_command (selection_indices adjset 0 0 edits) edits) ∧
    (∀ (adjset : List Nat) (i s : Nat) (e : KakouneTextEdit) (rest : List KakouneTextEdit),
      selection_indices adjset i s (e :: rest) =
        s :: selection_indices adjset (i + 1)
          (if i ∈ adjset ∧ e.new_text = "" then s else s + 1) rest) ∧
    (∀ e : KakouneTextEdit, apply_edit_command 0 e =
      "exec 'z<space>'\n                    " ++ command_name e.command ++ " " ++
        editor_quote e.new_text) ∧
    (∀ (s : Nat) (e : KakouneTextEdit), 0 < s → apply_edit_command s e =
      "exec 'z" ++ toString s ++ ")<space>'\n                    " ++
        command_name e.command ++ " " ++ editor_quote e.new_text) ∧
    (∀ edits : List KakouneTextEdit, (∀ e ∈ edits, e.new_text = "") →
      (∀ i ∈ List.range (edits.length - 1), i ∈ adjoin_selections edits) →
      selection_indices (adjoin_selections edits) 0 0 edits =
        List.replicate edits.length 0) := by
  refine ⟨fun adjset edits => apply_edits_fold_eq_zipWith adjset edits 0 0,
    fun adjset i s e rest => rfl, fun e => ?_, fun s e hs => ?_, fun edits hempty hflag => ?_⟩
  · simp [apply_edit_command, String.append_assoc]
  · simp [apply_edit_command, hs, String.append_assoc]
  · exact selection_indices_const (adjoin_selections edits) edits 0 0 hempty
      (fun k hk => by simpa using hflag k (List.mem_range.mpr (by omega)))

/-- Witness for C5: the converted Scenario C batch (a cross-line deletion
and a following insertion, both empty) is fully adjoining, so the counter
stays at 0; and a positive counter of 2 produces the `z2)` targeting
prefix. -/
theorem c5_selection_counter_witness :
    (0 : Nat) < 2 ∧
    apply_edit_command 2 (lsp_text_edit_to_kakoune scenarioAEdit) =
      "exec 'z" ++ toString (2 : Nat) ++ ")<space>'\n                    " ++
        command_name (lsp_text_edit_to_kakoune scenarioAEdit).command ++ " " ++
        editor_quote (lsp_text_edit_to_kakoune scenarioAEdit).new_text ∧
    selection_indices
        (adjoin_selections (sortTextEdits (scenarioCEdits.map lsp_text_edit_to_kakoune))) 0 0
        (sortTextEdits (scenarioCEdits.map lsp_text_edit_to_kakoune)) =
      List.replicate (sortTextEdits (scenarioCEdits.map lsp_text_edit_to_kakoune)).length 0 :=
  ⟨by decide, c5_selection_counter.2.2.2.1 2 _ (by decide),
    c5_selection_counter.2.2.2.2 _ (by decide) (by decide)⟩

/-- C7: the converted batch is sorted stably in ascending lexicographic
order of the 4-tuple key (start line, start column, end line, end column):
the output is a permutation of the input, it is sorted by the key order,
and the subsequence of edits carrying any fixed key is exactly the input's
subsequence with that key (stability). -/
theorem c7_stable_sort (l : List KakouneTextEdit) :
    List.Perm (sortTextEdits l) l ∧
    (sortTextEdits l).Sorted editLe ∧
    (∀ k : Nat × Nat × Nat × Nat,
      (sortTextEdits l).filter (fun x => decide (editKey x = k)) =
        l.filter (fun x => decide (editKey x = k))) := by
  refine ⟨List.perm_insertionSort editLe l, List.sorted_insertionSort editLe l, ?_⟩
  intro k
  set p : KakouneTextEdit → Bool := fun x => decide (editKey x = k) with hp
  have hpair : (l.filter p).Pairwise editLe := by
    apply List.pairwise_of_forall_mem_list
    intro a ha b hb
    have ha' : editKey a = k := of_decide_eq_true (List.mem_filter.mp ha).2
    have hb' : editKey b = k := of_decide_eq_true (List.mem_filter.mp hb).2
    unfold editLe keyLe
    rw [ha', hb']
    omega
  have hsub : List.Sublist (l.filter p) (sortTextEdits l) :=
    List.sublist_insertionSort hpair (List.filter_sublist l)
  have hperm : List.Perm ((sortTextEdits l).filter p) (l.filter p) :=
    (List.perm_insertionSort editLe l).filter p
  have hffilter : (l.filter p).filter p = l.filter p :=
    List.filter_eq_self.mpr fun a ha => (List.mem_filter.mp ha).2
  have hsub2 : List.Sublist (l.filter p) ((sortTextEdits l).filter p) := by
    have := hsub.filter p
    rwa [hffilter] at this
  exact (hsub2.eq_of_length hperm.length_eq.symm).symm

/-- C9: `apply_text_edits` on an empty batch returns exactly the no-op
literal `"nop"`; on every non-empty batch the emitted command block begins
with a `select` directive listing every converted edit's range (the sorted
batch is a permutation of the converted input), and the function totally
produces the (possibly file-wrapped) draft-evaluation of that block. -/
theorem c9_nop_and_select (uri : Option String) (text_edits : List TextEdit) :
    apply_text_edits uri [] = "nop" ∧
    (text_edits ≠ [] →
      (∃ rest, edit_commands_block text_edits =
        "select " ++
          select_edits (sortTextEdits (text_edits.map lsp_text_edit_to_kakoune)) ++ rest) ∧
      List.Perm (sortTextEdits (text_edits.map lsp_text_edit_to_kakoune))
        (text_edits.map lsp_text_edit_to_kakoune) ∧
      apply_text_edits uri text_edits =
        (match uri with
         | some buffile => "lsp-apply-edits-to-file " ++ editor_quote buffile ++ " " ++
             editor_quote ("eval -draft -save-regs '^' " ++
               editor_quote (edit_commands_block text_edits))
         | none => "eval -draft -save-regs '^' " ++
             editor_quote (edit_commands_block text_edits))) := by
  refine ⟨rfl, fun h => ⟨⟨"\n            exec -save-regs '' Z\n            " ++
    String.intercalate "\n"
      (apply_edits_fold
        (adjoin_selections (sortTextEdits (text_edits.map lsp_text_edit_to_kakoune))) 0 0
        (sortTextEdits (text_edits.map lsp_text_edit_to_kakoune))), ?_⟩,
    List.perm_insertionSort editLe _, ?_⟩⟩
  · simp [edit_commands_block, String.append_assoc]
  · rw [apply_text_edits, if_neg (by simpa using h)]

/-- Witness for C9 at the Scenario A one-edit batch. -/
theorem c9_nop_and_select_witness :
    apply_text_edits none [] = "nop" ∧ [scenarioAEdit] ≠ [] ∧
    (∃ rest, edit_commands_block [scenarioAEdit] =
      "select " ++
        select_edits (sortTextEdits ([scenarioAEdit].map lsp_text_edit_to_kakoune)) ++ rest) :=
  ⟨(c9_nop_and_select none [scenarioAEdit]).1, by decide,
    ((c9_nop_and_select none [scenarioAEdit]).2 (by decide)).1⟩

end KakLsp
